import Mathlib

/-!
Verification of the reclock/reduce demo.

The development embeds the program's source:
* `Time` with `less_equal`, `join`, `meet` embeds the `order` module of
  `src/main.rs` (the diamond lattice `A < {B,C,D} < {E,F} < G`).
* `AltNeu` is the two-phase timestamp wrapper.  Its crate is an external
  dependency, so its ordering is modelled from the spec's description of
  two-phase time.
* `reclock_record` embeds the function of the same name.
* `accumulated_at` and `dedup_at` model the deduplication pipeline of `main`
  (arrange-by-self, reduce, integrate), whose engine primitives are external
  collaborators described by the spec.
-/

/-- Embeds the `Time` enum of the `order` module: the diamond partial order
`A < {B,C,D}`, `B,C < E`, `C,D < F`, `E,F < G` (and `B,D < G`). -/
inductive Time : Type
| A
| B
| C
| D
| E
| F
| G
deriving DecidableEq, Repr, Fintype

/-- Embeds `PartialOrder::less_equal` for `Time`: the `matches!` arm list of the
source, one true-case per listed pattern, false otherwise. -/
def Time.less_equal (a b : Time) : Bool :=
  match a, b with
  | .A, _ => true
  | .B, .B | .B, .E | .B, .G => true
  | .C, .C | .C, .E | .C, .F | .C, .G => true
  | .D, .D | .D, .F | .D, .G => true
  | .E, .E | .E, .G => true
  | .F, .F | .F, .G => true
  | .G, .G => true
  | _, _ => false

/-- Embeds `Lattice::join` for `Time` with the fallibility of the source's
`unreachable!()` arm made explicit: the two guarded arms first, then the
explicit pair arms, and `none` where the source would panic. -/
def Time.joinChecked (a b : Time) : Option Time :=
  if Time.less_equal a b then some b
  else if Time.less_equal b a then some a
  else
    match a, b with
    | .B, .D | .D, .B | .B, .F | .F, .B
    | .E, .D | .D, .E | .E, .F | .F, .E => some .G
    | .B, .C | .C, .B => some .E
    | .C, .D | .D, .C => some .F
    | _, _ => none

/-- Embeds `Lattice::meet` for `Time`, with `none` standing for the
`unreachable!()` arm. -/
def Time.meetChecked (a b : Time) : Option Time :=
  if Time.less_equal a b then some a
  else if Time.less_equal b a then some b
  else
    match a, b with
    | .B, .C | .C, .B | .C, .D | .D, .C | .B, .D | .D, .B
    | .B, .F | .F, .B | .E, .D | .D, .E => some .A
    | .E, .F | .F, .E => some .C
    | _, _ => none

/-- Total `join` on `Time`; the default is never used (`Time.joinChecked` is
total on all 49 pairs, proved below). -/
def Time.join (a b : Time) : Time :=
  (Time.joinChecked a b).getD a

/-- Total `meet` on `Time`; the default is never used. -/
def Time.meet (a b : Time) : Time :=
  (Time.meetChecked a b).getD a

/-- Embeds `Timestamp::minimum` for `Time`. -/
def Time.minimum : Time := Time.A

/-- The two phases of a two-phase time: `alt` (assertion sub-instant) before
`neu` (retraction sub-instant). -/
inductive Phase : Type
| alt
| neu
deriving DecidableEq, Repr, Fintype

/-- Modelled from the spec: a two-phase time is a pair of an inner time and a
phase tag (the `AltNeu` wrapper of the external crate). -/
structure AltNeu (T : Type) : Type where
  time : T
  phase : Phase
deriving DecidableEq, Repr

/-- Constructs the assertion-phase time `Alt(t)`. -/
def AltNeu.alt {T : Type} (t : T) : AltNeu T := ⟨t, Phase.alt⟩

/-- Constructs the retraction-phase time `Neu(t)`. -/
def AltNeu.neu {T : Type} (t : T) : AltNeu T := ⟨t, Phase.neu⟩

/-- Modelled from the spec: the two-phase order over the concrete `Time`
domain.  `(t1,Alt) ≤ (t2,Alt) ⟺ t1 ≤ t2`; `(t1,Neu) ≤ (t2,Neu) ⟺ t1 ≤ t2`;
`(t1,Alt) ≤ (t2,Neu) ⟺ t1 ≤ t2`; `(t1,Neu) ≤ (t2,Alt) ⟺ t1 < t2` (strict). -/
def AltNeu.less_equal (a b : AltNeu Time) : Bool :=
  match a.phase, b.phase with
  | Phase.alt, Phase.alt => Time.less_equal a.time b.time
  | Phase.alt, Phase.neu => Time.less_equal a.time b.time
  | Phase.neu, Phase.neu => Time.less_equal a.time b.time
  | Phase.neu, Phase.alt => Time.less_equal a.time b.time && a.time != b.time

instance : Fintype (AltNeu Time) :=
  Fintype.ofEquiv (Time × Phase)
    { toFun := fun p => ⟨p.1, p.2⟩
      invFun := fun a => (a.time, a.phase)
      left_inv := fun _ => rfl
      right_inv := fun _ => rfl }

/-- Embeds `reclock_record` of `src/main.rs`: fan the record out as an
assertion at `Alt(into_ts)` for every `into_ts` of the frontier, accumulating
`total_diff`, then retract `total_diff` at the `Neu` of the repeated pairwise
join of the frontier started from the domain minimum.  The multiplicity type
`R` is an abelian group, as required by the `R: Abelian` bound. -/
def reclock_record {D FromTime IntoTime R : Type} [AddCommGroup R]
    (join : IntoTime → IntoTime → IntoTime) (minimum : IntoTime)
    (record : D × FromTime × R) (frontier : List IntoTime) :
    List ((D × FromTime × R) × AltNeu IntoTime × R) :=
  -- This is the original triplet that becomes the data of the new collection.
  let orig_record := record
  let diff := record.2.2
  -- First loop: one assertion per frontier member, accumulating total_diff.
  let total_diff := frontier.foldl (fun acc _ => acc + diff) 0
  let updates := frontier.map (fun into_ts => (orig_record, AltNeu.alt into_ts, diff))
  -- Second loop: the join of all the indicated times, from the minimum.
  let neu_into_ts := frontier.foldl join minimum
  updates ++ [(orig_record, AltNeu.neu neu_into_ts, -total_diff)]

/-- Modelled from the spec: the multiplicity of a key accumulated at a
two-phase time `x` is the sum of the multiplicities of all its updates whose
timestamp is at-or-below `x` (the engine's per-key accumulation that the
`reduce` stage observes). -/
def accumulated_at {K : Type} (updates : List (K × AltNeu Time × Int))
    (x : AltNeu Time) : Int :=
  (updates.map (fun u => if AltNeu.less_equal u.2.1 x then u.2.2 else 0)).sum

/-- Modelled from the spec: the deduplication pipeline of `main`
(`arrange_by_self`, then the `reduce` closure that re-emits the key's recorded
original `diff` whenever the accumulated count is non-zero, then `integrate`).
Its value at `x` is the snapshot multiplicity the pipeline reports for the
record at two-phase time `x`. -/
def dedup_at {D FromTime : Type} (record : D × FromTime × Int)
    (frontier : List Time) (x : AltNeu Time) : Int :=
  if accumulated_at (reclock_record Time.join Time.minimum record frontier) x ≠ 0
  then record.2.2
  else 0

example : Time.join (Time.join (Time.join Time.A Time.B) Time.C) Time.D = Time.G := by decide

example :
    reclock_record Time.join Time.minimum ("data", (0 : Nat), (2 : Int))
      [Time.B, Time.C, Time.D] =
    [(("data", 0, 2), AltNeu.alt Time.B, 2),
     (("data", 0, 2), AltNeu.alt Time.C, 2),
     (("data", 0, 2), AltNeu.alt Time.D, 2),
     (("data", 0, 2), AltNeu.neu Time.G, -6)] := by decide

example : dedup_at ("data", (0 : Nat), (2 : Int)) [Time.B, Time.C, Time.D]
    (AltNeu.alt Time.E) = 2 := by decide

example : dedup_at ("data", (0 : Nat), (2 : Int)) [Time.B, Time.C, Time.D]
    (AltNeu.neu Time.G) = 0 := by decide

/-! Helper lemmas: decidable facts about the finite `Time` lattice and the
two-phase order, and fold lemmas used by several claims. -/

lemma time_le_refl : ∀ a : Time, Time.less_equal a a = true := by decide

lemma time_le_trans : ∀ a b c : Time, Time.less_equal a b = true →
    Time.less_equal b c = true → Time.less_equal a c = true := by decide

lemma time_le_join_left : ∀ a b : Time, Time.less_equal a (Time.join a b) = true := by decide

lemma time_le_join_right : ∀ a b : Time, Time.less_equal b (Time.join a b) = true := by decide

lemma time_join_le : ∀ a b c : Time, Time.less_equal a c = true →
    Time.less_equal b c = true → Time.less_equal (Time.join a b) c = true := by decide

lemma time_join_right_comm : ∀ a b c : Time,
    Time.join (Time.join a b) c = Time.join (Time.join a c) b := by decide

lemma time_bot_le : ∀ a : Time, Time.less_equal Time.minimum a = true := by decide

lemma altneu_le_trans : ∀ a b c : AltNeu Time, AltNeu.less_equal a b = true →
    AltNeu.less_equal b c = true → AltNeu.less_equal a c = true := by decide

lemma altneu_le_antisymm : ∀ a b : AltNeu Time, AltNeu.less_equal a b = true →
    AltNeu.less_equal b a = true → a = b := by decide

lemma altneu_alt_le_neu : ∀ a b : Time,
    AltNeu.less_equal (AltNeu.alt a) (AltNeu.neu b) = Time.less_equal a b := by decide

/-- The accumulator of the fold is below the fold's result. -/
lemma le_foldl_join : ∀ (F : List Time) (acc : Time),
    Time.less_equal acc (F.foldl Time.join acc) = true
  | [], acc => time_le_refl acc
  | t :: F, acc =>
      time_le_trans _ _ _ (time_le_join_left acc t) (le_foldl_join F (Time.join acc t))

/-- Every member of the folded list is below the fold's result. -/
lemma mem_le_foldl_join : ∀ (F : List Time) (acc t : Time), t ∈ F →
    Time.less_equal t (F.foldl Time.join acc) = true := by
  intro F
  induction F with
  | nil => intro acc t ht; cases ht
  | cons x F ih =>
      intro acc t ht
      rcases List.mem_cons.mp ht with h | h
      · subst h
        exact time_le_trans _ _ _ (time_le_join_right acc t) (le_foldl_join F (Time.join acc t))
      · exact ih (Time.join acc x) t h

/-- The fold is below any common upper bound of the accumulator and the list. -/
lemma foldl_join_le : ∀ (F : List Time) (acc u : Time),
    Time.less_equal acc u = true → (∀ t ∈ F, Time.less_equal t u = true) →
    Time.less_equal (F.foldl Time.join acc) u = true := by
  intro F
  induction F with
  | nil => intro acc u hacc _; exact hacc
  | cons x F ih =>
      intro acc u hacc hall
      exact ih (Time.join acc x) u
        (time_join_le acc x u hacc (hall x (List.mem_cons_self x F)))
        (fun t ht => hall t (List.mem_cons_of_mem x ht))

/-- Permuting the folded list does not change the fold of `Time.join`. -/
lemma foldl_join_perm : ∀ {F G : List Time}, F.Perm G →
    ∀ acc : Time, F.foldl Time.join acc = G.foldl Time.join acc := by
  intro F G h
  induction h with
  | nil => intro _; rfl
  | cons x _ ih => intro acc; exact ih (Time.join acc x)
  | swap x y l =>
      intro acc
      simp only [List.foldl_cons]
      rw [time_join_right_comm acc x y]
  | trans _ _ ih1 ih2 => intro acc; rw [ih1 acc, ih2 acc]

/-- Folding `acc + d` over a list adds `length • d`. -/
lemma foldl_add_const {α R : Type} [AddCommGroup R] (d : R) :
    ∀ (F : List α) (init : R),
      F.foldl (fun acc _ => acc + d) init = init + F.length • d := by
  intro F
  induction F with
  | nil => intro init; simp
  | cons x F ih =>
      intro init
      simp only [List.foldl_cons, List.length_cons, ih (init + d), succ_nsmul]
      abel

/-- The sum of a constant map is `length • d`. -/
lemma sum_map_const {α R : Type} [AddCommGroup R] (d : R) (F : List α) :
    (F.map (fun _ => d)).sum = F.length • d := by
  induction F with
  | nil => simp
  | cons x F ih => simp [ih, succ_nsmul, add_comm]

/-- Summing `if p t then d else 0` over a list counts the satisfying members. -/
lemma sum_map_ite_count {α : Type} (p : α → Bool) (d : Int) (F : List α) :
    (F.map (fun t => if p t then d else 0)).sum = (F.countP p : Int) * d := by
  induction F with
  | nil => simp
  | cons x F ih =>
      by_cases hx : p x
      · simp [hx, ih, List.countP_cons, add_mul, add_comm]
      · simp [hx, ih, List.countP_cons]

/-- Accumulation distributes over list append. -/
lemma accumulated_at_append {K : Type} (l1 l2 : List (K × AltNeu Time × Int))
    (x : AltNeu Time) :
    accumulated_at (l1 ++ l2) x = accumulated_at l1 x + accumulated_at l2 x := by
  simp [accumulated_at]

/-- Closed form of the accumulated multiplicity of a reclocked record: one `d`
per frontier member whose assertion time is at-or-below `x`, minus `n·d` once
the retraction time is at-or-below `x`. -/
lemma accumulated_reclock {D FromTime : Type} (record : D × FromTime × Int)
    (F : List Time) (x : AltNeu Time) :
    accumulated_at (reclock_record Time.join Time.minimum record F) x =
      (F.countP (fun t => AltNeu.less_equal (AltNeu.alt t) x) : Int) * record.2.2
      - (if AltNeu.less_equal (AltNeu.neu (F.foldl Time.join Time.minimum)) x
         then (F.length : Int) * record.2.2 else 0) := by
  simp only [reclock_record, accumulated_at_append]
  rw [foldl_add_const]
  simp only [accumulated_at, List.map_map, List.map_cons, List.map_nil,
    Function.comp_def]
  rw [sum_map_ite_count]
  by_cases hr : AltNeu.less_equal (AltNeu.neu (F.foldl Time.join Time.minimum)) x
  · simp [hr, nsmul_eq_mul, sub_eq_add_neg]
  · simp [hr]

/-! Claim theorems. -/

/-- C1: for every update `(payload, from_time, d)` with `d` in an abelian
group and every non-empty frontier, the multiplicities of all updates
returned by `reclock_record` sum to zero: the assertion multiplicities and
the single retraction cancel exactly. -/
theorem reclock_record_zero_sum {D FromTime IntoTime R : Type} [AddCommGroup R]
    (join : IntoTime → IntoTime → IntoTime) (minimum : IntoTime)
    (record : D × FromTime × R) (frontier : List IntoTime)
    (_hne : frontier ≠ []) :
    ((reclock_record join minimum record frontier).map (fun u => u.2.2)).sum = 0 := by
  simp only [reclock_record, List.map_append, List.map_map, List.map_cons,
    List.map_nil, List.sum_append, Function.comp_def]
  rw [foldl_add_const, sum_map_const]
  simp

/-- C1 witness: the zero-sum law at the demo's concrete record and frontier. -/
theorem reclock_record_zero_sum_witness :
    ([Time.B, Time.C, Time.D] : List Time) ≠ [] ∧
    ((reclock_record Time.join Time.minimum ("data", (0 : Nat), (2 : Int))
        [Time.B, Time.C, Time.D]).map (fun u => u.2.2)).sum = 0 :=
  ⟨by decide,
   reclock_record_zero_sum Time.join Time.minimum ("data", (0 : Nat), (2 : Int))
     [Time.B, Time.C, Time.D] (by decide)⟩

/-- C2: on a non-empty frontier of size `n`, `reclock_record` returns exactly
the `n` assertions `(record, Alt(ti), d)` in frontier order followed by the
single retraction `(record, Neu(join of the frontier from the minimum),
-(n • d))`. -/
theorem reclock_record_shape {D FromTime IntoTime R : Type} [AddCommGroup R]
    (join : IntoTime → IntoTime → IntoTime) (minimum : IntoTime)
    (record : D × FromTime × R) (frontier : List IntoTime)
    (_hne : frontier ≠ []) :
    reclock_record join minimum record frontier =
      frontier.map (fun t => (record, AltNeu.alt t, record.2.2)) ++
      [(record, AltNeu.neu (frontier.foldl join minimum),
        -(frontier.length • record.2.2))] := by
  simp only [reclock_record]
  rw [foldl_add_const]
  simp

/-- C2 witness: the output shape at the demo's concrete record and frontier. -/
theorem reclock_record_shape_witness :
    ([Time.B, Time.C, Time.D] : List Time) ≠ [] ∧
    reclock_record Time.join Time.minimum ("data", (0 : Nat), (2 : Int))
        [Time.B, Time.C, Time.D] =
      ([Time.B, Time.C, Time.D].map
        (fun t => ((("data", (0 : Nat), (2 : Int))), AltNeu.alt t,
          ("data", (0 : Nat), (2 : Int)).2.2))) ++
      [(("data", (0 : Nat), (2 : Int)),
        AltNeu.neu ([Time.B, Time.C, Time.D].foldl Time.join Time.minimum),
        -(([Time.B, Time.C, Time.D] : List Time).length •
          ("data", (0 : Nat), (2 : Int)).2.2))] :=
  ⟨by decide,
   reclock_record_shape Time.join Time.minimum ("data", (0 : Nat), (2 : Int))
     [Time.B, Time.C, Time.D] (by decide)⟩

/-- C3: in the diamond domain, reclocking `("data", 0, 2)` against the
frontier `{B, C, D}` yields exactly the assertions `+2` at `Alt(B)`,
`Alt(C)`, `Alt(D)` and one retraction `-6` at `Neu(G)`, and the fold
`join(join(join(A,B),C),D)` indeed equals `G`. -/
theorem reclock_diamond_scenario :
    reclock_record Time.join Time.minimum ("data", (0 : Nat), (2 : Int))
        [Time.B, Time.C, Time.D] =
      [(("data", 0, 2), AltNeu.alt Time.B, 2),
       (("data", 0, 2), AltNeu.alt Time.C, 2),
       (("data", 0, 2), AltNeu.alt Time.D, 2),
       (("data", 0, 2), AltNeu.neu Time.G, -6)] ∧
    Time.join (Time.join (Time.join Time.A Time.B) Time.C) Time.D = Time.G := by
  decide

/-- C4: at any two-phase time `x` that is at-or-above some `Alt(ti)` of the
frontier and strictly below the retraction time `Neu(join F)`, the
deduplication pipeline reports the record with its original multiplicity
`d`, not the fanned-out `n·d`. -/
theorem visibility_window {D FromTime : Type} (record : D × FromTime × Int)
    (frontier : List Time) (x : AltNeu Time)
    (hmem : ∃ t ∈ frontier, AltNeu.less_equal (AltNeu.alt t) x = true)
    (hle : AltNeu.less_equal x
      (AltNeu.neu (frontier.foldl Time.join Time.minimum)) = true)
    (hlt : x ≠ AltNeu.neu (frontier.foldl Time.join Time.minimum)) :
    dedup_at record frontier x = record.2.2 := by
  have hnr : AltNeu.less_equal
      (AltNeu.neu (frontier.foldl Time.join Time.minimum)) x ≠ true := by
    intro hc
    exact hlt (altneu_le_antisymm _ _ hle hc)
  have hacc : accumulated_at
      (reclock_record Time.join Time.minimum record frontier) x =
      (frontier.countP (fun t => AltNeu.less_equal (AltNeu.alt t) x) : Int)
        * record.2.2 := by
    rw [accumulated_reclock]
    simp [hnr]
  have hcount : 0 < frontier.countP (fun t => AltNeu.less_equal (AltNeu.alt t) x) :=
    List.countP_pos_iff.mpr hmem
  by_cases hd : record.2.2 = 0
  · simp [dedup_at, hacc, hd]
  · have hne0 : (frontier.countP (fun t => AltNeu.less_equal (AltNeu.alt t) x) : Int) ≠ 0 := by
      have hc := Nat.pos_iff_ne_zero.mp hcount
      exact_mod_cast hc
    have hprod := mul_ne_zero hne0 hd
    simp [dedup_at, hacc, hprod]

/-- C4 witness: at `Alt(B)` the pipeline reports `("data", 0, 2)` with
multiplicity exactly `2`. -/
theorem visibility_window_witness :
    (∃ t ∈ ([Time.B, Time.C, Time.D] : List Time),
      AltNeu.less_equal (AltNeu.alt t) (AltNeu.alt Time.B) = true) ∧
    AltNeu.less_equal (AltNeu.alt Time.B)
      (AltNeu.neu ([Time.B, Time.C, Time.D].foldl Time.join Time.minimum)) = true ∧
    AltNeu.alt Time.B ≠
      AltNeu.neu ([Time.B, Time.C, Time.D].foldl Time.join Time.minimum) ∧
    dedup_at ("data", (0 : Nat), (2 : Int)) [Time.B, Time.C, Time.D]
      (AltNeu.alt Time.B) = 2 :=
  ⟨by decide, by decide, by decide,
   visibility_window ("data", (0 : Nat), (2 : Int)) [Time.B, Time.C, Time.D]
     (AltNeu.alt Time.B) (by decide) (by decide) (by decide)⟩

/-- C5: at any two-phase time `x` at-or-above the retraction time
`Neu(join F)`, the accumulated multiplicity of the reclocked record is
exactly `0`, and every update emitted by `reclock_record` has a timestamp
at-or-below `Neu(join F)`. -/
theorem post_join_absence {D FromTime : Type} (record : D × FromTime × Int)
    (frontier : List Time) (x : AltNeu Time)
    (h : AltNeu.less_equal
      (AltNeu.neu (frontier.foldl Time.join Time.minimum)) x = true) :
    accumulated_at (reclock_record Time.join Time.minimum record frontier) x = 0 ∧
    ∀ u ∈ reclock_record Time.join Time.minimum record frontier,
      AltNeu.less_equal u.2.1
        (AltNeu.neu (frontier.foldl Time.join Time.minimum)) = true := by
  have hall : ∀ t ∈ frontier, AltNeu.less_equal (AltNeu.alt t) x = true := by
    intro t ht
    refine altneu_le_trans _ _ _ ?_ h
    rw [altneu_alt_le_neu]
    exact mem_le_foldl_join frontier Time.minimum t ht
  constructor
  · rw [accumulated_reclock]
    rw [List.countP_eq_length.mpr hall]
    simp [h]
  · intro u hu
    simp only [reclock_record, List.mem_append, List.mem_map, List.mem_cons,
      List.not_mem_nil, or_false] at hu
    rcases hu with ⟨t, ht, rfl⟩ | rfl
    · rw [altneu_alt_le_neu]
      exact mem_le_foldl_join frontier Time.minimum t ht
    · exact time_le_refl _

/-- C5 witness: at `Neu(G)` the accumulated multiplicity of the demo record
is `0`, and every emitted update is timestamped at-or-below `Neu(G)`. -/
theorem post_join_absence_witness :
    AltNeu.less_equal
      (AltNeu.neu (([Time.B, Time.C, Time.D] : List Time).foldl Time.join Time.minimum))
      (AltNeu.neu Time.G) = true ∧
    (accumulated_at (reclock_record Time.join Time.minimum
       ("data", (0 : Nat), (2 : Int)) [Time.B, Time.C, Time.D])
       (AltNeu.neu Time.G) = 0 ∧
     ∀ u ∈ reclock_record Time.join Time.minimum ("data", (0 : Nat), (2 : Int))
         [Time.B, Time.C, Time.D],
       AltNeu.less_equal u.2.1
         (AltNeu.neu (([Time.B, Time.C, Time.D] : List Time).foldl
           Time.join Time.minimum)) = true) :=
  ⟨by decide,
   post_join_absence ("data", (0 : Nat), (2 : Int)) [Time.B, Time.C, Time.D]
     (AltNeu.neu Time.G) (by decide)⟩

/-- C6: the concrete `Time` domain satisfies the lattice contract:
`less_equal` is reflexive, antisymmetric and transitive; `join` and `meet`
are commutative, associative and idempotent; `join` is the least upper bound
and `meet` the greatest lower bound; and the distinguished minimum `A` is
below every element. -/
theorem time_lattice_contract :
    (∀ a : Time, Time.less_equal a a = true) ∧
    (∀ a b : Time, Time.less_equal a b = true → Time.less_equal b a = true → a = b) ∧
    (∀ a b c : Time, Time.less_equal a b = true → Time.less_equal b c = true →
      Time.less_equal a c = true) ∧
    (∀ a b : Time, Time.join a b = Time.join b a) ∧
    (∀ a b c : Time, Time.join (Time.join a b) c = Time.join a (Time.join b c)) ∧
    (∀ a : Time, Time.join a a = a) ∧
    (∀ a b : Time, Time.meet a b = Time.meet b a) ∧
    (∀ a b c : Time, Time.meet (Time.meet a b) c = Time.meet a (Time.meet b c)) ∧
    (∀ a : Time, Time.meet a a = a) ∧
    (∀ a b : Time, Time.less_equal a (Time.join a b) = true ∧
      Time.less_equal b (Time.join a b) = true ∧
      ∀ c : Time, Time.less_equal a c = true → Time.less_equal b c = true →
        Time.less_equal (Time.join a b) c = true) ∧
    (∀ a b : Time, Time.less_equal (Time.meet a b) a = true ∧
      Time.less_equal (Time.meet a b) b = true ∧
      ∀ c : Time, Time.less_equal c a = true → Time.less_equal c b = true →
        Time.less_equal c (Time.meet a b) = true) ∧
    (Time.minimum = Time.A ∧ ∀ t : Time, Time.less_equal Time.minimum t = true) := by
  decide

/-- C7: `join` and `meet` on `Time` are total: on every pair some explicit
match arm applies and the `unreachable!()` arm is never reached, so neither
function panics. -/
theorem join_meet_total :
    ∀ a b : Time, (Time.joinChecked a b).isSome = true ∧
      (Time.meetChecked a b).isSome = true := by
  decide

/-- C8: for a non-empty frontier, folding `join` pairwise from the domain
minimum is invariant under reordering of the frontier, and the result is the
least upper bound of the frontier's members. -/
theorem join_order_independent (F F' : List Time)
    (_hne : F ≠ []) (hperm : F.Perm F') :
    F.foldl Time.join Time.minimum = F'.foldl Time.join Time.minimum ∧
    (∀ t ∈ F, Time.less_equal t (F.foldl Time.join Time.minimum) = true) ∧
    (∀ u : Time, (∀ t ∈ F, Time.less_equal t u = true) →
      Time.less_equal (F.foldl Time.join Time.minimum) u = true) :=
  ⟨foldl_join_perm hperm Time.minimum,
   fun t ht => mem_le_foldl_join F Time.minimum t ht,
   fun u hall => foldl_join_le F Time.minimum u (time_bot_le u) hall⟩

/-- C8 witness: the fold over `[C, B, D]` equals the fold over `[B, C, D]`
and is the least upper bound of the frontier. -/
theorem join_order_independent_witness :
    ([Time.C, Time.B, Time.D] : List Time) ≠ [] ∧
    List.Perm [Time.C, Time.B, Time.D] [Time.B, Time.C, Time.D] ∧
    (([Time.C, Time.B, Time.D] : List Time).foldl Time.join Time.minimum =
       ([Time.B, Time.C, Time.D] : List Time).foldl Time.join Time.minimum ∧
     (∀ t ∈ ([Time.C, Time.B, Time.D] : List Time),
       Time.less_equal t (([Time.C, Time.B, Time.D] : List Time).foldl
         Time.join Time.minimum) = true) ∧
     (∀ u : Time, (∀ t ∈ ([Time.C, Time.B, Time.D] : List Time),
         Time.less_equal t u = true) →
       Time.less_equal (([Time.C, Time.B, Time.D] : List Time).foldl
         Time.join Time.minimum) u = true)) :=
  ⟨by decide, List.Perm.swap Time.B Time.C [Time.D],
   join_order_independent [Time.C, Time.B, Time.D] [Time.B, Time.C, Time.D]
     (by decide) (List.Perm.swap Time.B Time.C [Time.D])⟩

/-- C9 counterexample: the empty frontier is representable and
`reclock_record` accepts it without any rejection, returning output of the
same shape as for a valid frontier (`n + 1 = 1` update: the retraction at
`Neu(minimum)` with multiplicity zero). -/
theorem reclock_record_empty_frontier_accepted :
    reclock_record Time.join Time.minimum ("data", (0 : Nat), (2 : Int))
      ([] : List Time) =
    [(("data", 0, 2), AltNeu.neu Time.A, 0)] := by
  decide

/-- C9 amended: `reclock_record` does not reject the empty frontier; it
silently returns the single retraction update `(record, Neu(minimum), 0)`. -/
theorem reclock_record_empty_frontier {D FromTime IntoTime R : Type}
    [AddCommGroup R] (join : IntoTime → IntoTime → IntoTime)
    (minimum : IntoTime) (record : D × FromTime × R) :
    reclock_record join minimum record ([] : List IntoTime) =
      [(record, AltNeu.neu minimum, 0)] := by
  simp [reclock_record]

/-- C10: every update returned by `reclock_record` carries, as its data
component, exactly the original input triple, unchanged. -/
theorem reclock_record_preserves_data {D FromTime IntoTime R : Type}
    [AddCommGroup R] (join : IntoTime → IntoTime → IntoTime)
    (minimum : IntoTime) (record : D × FromTime × R)
    (frontier : List IntoTime) :
    ∀ u ∈ reclock_record join minimum record frontier, u.1 = record := by
  intro u hu
  simp only [reclock_record, List.mem_append, List.mem_map, List.mem_cons,
    List.not_mem_nil, or_false] at hu
  rcases hu with ⟨t, _, rfl⟩ | rfl
  · rfl
  · rfl

/-- C10 witness: the first assertion of the demo run is in the output and its
data component is the original triple. -/
theorem reclock_record_preserves_data_witness :
    ((("data", (0 : Nat), (2 : Int)), AltNeu.alt Time.B, (2 : Int)) ∈
      reclock_record Time.join Time.minimum ("data", (0 : Nat), (2 : Int))
        [Time.B, Time.C, Time.D]) ∧
    ((("data", (0 : Nat), (2 : Int)), AltNeu.alt Time.B, (2 : Int)) :
      (String × Nat × Int) × AltNeu Time × Int).1 = ("data", (0 : Nat), (2 : Int)) :=
  ⟨by decide,
   reclock_record_preserves_data Time.join Time.minimum
     ("data", (0 : Nat), (2 : Int)) [Time.B, Time.C, Time.D]
     (("data", (0 : Nat), (2 : Int)), AltNeu.alt Time.B, (2 : Int)) (by decide)⟩
